import Mathlib

/-!
# Logger: the asynchronous log pipeline

A shallow embedding of `Logger.h`, `Logger.cpp` and `ConcurrentQueue.h`:

* `StdString` is a `std::string` (a finite character sequence shorter than `npos`), with the
  `rfind` and `substr` members that `LogMessage::getFileOrClassname` calls; `size_t` arithmetic
  is arithmetic on `Nat` modulo `2 ^ 64`;
* `LogLevel`, `LogMessage` with its constructor, getters, copy operations and `operator<<`;
* `ConcurrentQueue` in its sequential behaviour, elements stored and returned through the
  element type's copy constructor;
* `LogManager` as a state (`System`: the object's fields, standard output and the files), the
  consumer loop `LogManager::run` as a step function on it, and `log`, `setLevel`, `setFile`,
  `stop`.
-/

namespace Logging

/-! ## `std::string` and `size_t` -/

/-- The modulus of `size_t` arithmetic (64-bit `size_t`). -/
def SIZE_MOD : Nat := 2 ^ 64

/-- Conversion of a signed value to `size_t`, as in `pos = -1`. -/
def toSizeT (i : Int) : Nat := (i % (SIZE_MOD : Int)).toNat

/-- The constant `std::string::npos`, the largest `size_t` value. -/
def npos : Nat := SIZE_MOD - 1

/-- A `std::string`: its characters, and the library's guarantee that `size()` stays below
`npos` (`size() <= max_size() < npos`). -/
structure StdString where
  data : List Char
  size_lt : data.length < npos
deriving DecidableEq

namespace StdString

/-- The member `size()`. -/
def size (s : StdString) : Nat := s.data.length

/-- A string literal; every literal of the program is far shorter than `npos`. -/
def lit (s : String) : StdString :=
  ⟨s.toList.take (npos - 1), by
    have h := List.length_take_le (npos - 1) s.toList
    simp only [npos, SIZE_MOD] at *
    omega⟩

/-- The index of the last occurrence of `c` in a character sequence, when there is one. -/
def rfindList (c : Char) : List Char → Option Nat
  | [] => none
  | x :: xs =>
    match rfindList c xs with
    | some i => some (i + 1)
    | none => if x = c then some 0 else none

/-- The member `rfind(char)`: the index of the last occurrence of `c`, or `npos`. -/
def rfind (s : StdString) (c : Char) : Nat :=
  match rfindList c s.data with
  | some i => i
  | none => npos

/-- The member `substr(pos, len)`: the characters `[pos, min(pos + len, size()))`. The library
throws `out_of_range` when `pos > size()`; the caller proves that it stays within range. -/
def substr (s : StdString) (pos len : Nat) (_h : pos ≤ s.size) : StdString :=
  ⟨(s.data.drop pos).take len, by
    have h3 := s.size_lt
    simp only [List.length_take, List.length_drop]
    omega⟩

theorem ext_data {s t : StdString} (h : s.data = t.data) : s = t := by
  cases s; cases t; cases h; rfl

theorem rfindList_lt (c : Char) :
    ∀ (l : List Char) (i : Nat), rfindList c l = some i → i < l.length := by
  intro l
  induction l with
  | nil => intro i h; simp [rfindList] at h
  | cons x xs ih =>
    intro i h
    cases hr : rfindList c xs with
    | some j =>
      simp only [rfindList, hr, Option.some.injEq] at h
      have := ih j hr
      simp only [List.length_cons]
      omega
    | none =>
      simp only [rfindList, hr] at h
      by_cases hx : x = c
      · simp only [hx, if_true, Option.some.injEq] at h
        simp only [List.length_cons]
        omega
      · simp [hx] at h

/-- The start index that `getFileOrClassname` passes to `substr` is within the string. -/
theorem substr_start_le (s : StdString) :
    toSizeT (((if s.rfind '/' = npos then toSizeT (-1) else s.rfind '/' : Nat) : Int) + 1)
      ≤ s.size := by
  unfold rfind
  cases hr : rfindList '/' s.data with
  | none =>
    simp [toSizeT, npos, SIZE_MOD]
  | some i =>
    have hi := rfindList_lt '/' s.data i hr
    have hs := s.size_lt
    have hne : i ≠ npos := by omega
    simp only [hne, if_false, size]
    simp only [npos, SIZE_MOD] at hs
    simp only [toSizeT, SIZE_MOD]
    omega

end StdString

/-! ## `LogLevel` and `LogMessage` -/

/-- The enumeration `LogLevel`, in declaration order. -/
inductive LogLevel where
  | LEVEL_NONE
  | LEVEL_FATAL
  | LEVEL_ERROR
  | LEVEL_WARN
  | LEVEL_INFO
  | LEVEL_DEBUG
  | LEVEL_TRACE
  | LEVEL_TRACE1
  | LEVEL_TRACE2
  | LEVEL_TRACE3
  | LEVEL_TRACE4
  | LEVEL_TRACE5
deriving DecidableEq, Repr

/-- The underlying value of an enumerator; `>=` on `LogLevel` compares these. -/
def LogLevel.toNat : LogLevel → Nat
  | .LEVEL_NONE => 0
  | .LEVEL_FATAL => 1
  | .LEVEL_ERROR => 2
  | .LEVEL_WARN => 3
  | .LEVEL_INFO => 4
  | .LEVEL_DEBUG => 5
  | .LEVEL_TRACE => 6
  | .LEVEL_TRACE1 => 7
  | .LEVEL_TRACE2 => 8
  | .LEVEL_TRACE3 => 9
  | .LEVEL_TRACE4 => 10
  | .LEVEL_TRACE5 => 11

/-- The comparison `a >= b` of two levels. -/
def LogLevel.ge (a b : LogLevel) : Bool := decide (b.toNat ≤ a.toNat)

/-- The private fields of a `LogMessage`. -/
structure LogMessage where
  m_logLevel : LogLevel
  m_file : StdString
  m_function : StdString
  m_msg : StdString
deriving DecidableEq

namespace LogMessage

/-- The constructor `LogMessage(level, file, function, msg)`: every field is initialised from
the argument of the same name. -/
def construct (level : LogLevel) (file function msg : StdString) : LogMessage :=
  { m_logLevel := level, m_file := file, m_function := function, m_msg := msg }

def getLogLevel (m : LogMessage) : LogLevel := m.m_logLevel

/-- The getter `getFileOrClassname`: `rfind('/')`, `npos` replaced by `-1`, then
`substr(pos + 1, size())`, the sum taken in `size_t`. -/
def getFileOrClassname (m : LogMessage) : StdString :=
  let pos : Nat := m.m_file.rfind '/'
  let pos : Nat := if pos = npos then toSizeT (-1) else pos
  m.m_file.substr (toSizeT ((pos : Int) + 1)) m.m_file.size (StdString.substr_start_le m.m_file)

def getFunction (m : LogMessage) : StdString := m.m_function

def getMsg (m : LogMessage) : StdString := m.m_msg

/-- The copy constructor, and `operator=` alike: every field of the copy is read through the
getter of `rhs`. -/
def copy (rhs : LogMessage) : LogMessage :=
  { m_logLevel := rhs.getLogLevel
    m_file := rhs.getFileOrClassname
    m_function := rhs.getFunction
    m_msg := rhs.getMsg }

/-- The static member `logLevelToString`. -/
def logLevelToString : LogLevel → StdString
  | .LEVEL_FATAL => StdString.lit "FATAL"
  | .LEVEL_ERROR => StdString.lit "ERROR"
  | .LEVEL_WARN => StdString.lit "WARN"
  | .LEVEL_INFO => StdString.lit "INFO"
  | .LEVEL_DEBUG => StdString.lit "DEBUG"
  | .LEVEL_TRACE => StdString.lit "TRACE"
  | .LEVEL_TRACE1 => StdString.lit "TRACE1"
  | .LEVEL_TRACE2 => StdString.lit "TRACE2"
  | .LEVEL_TRACE3 => StdString.lit "TRACE3"
  | .LEVEL_TRACE4 => StdString.lit "TRACE4"
  | .LEVEL_TRACE5 => StdString.lit "TRACE5"
  | _ => StdString.lit "NONE"

/-- The characters that `operator<<(out, msg)` appends to the stream `out`. -/
def operatorShl (msg : LogMessage) : List Char :=
  "[".toList ++ (logLevelToString msg.getLogLevel).data ++ "]".toList
    ++ " ".toList ++ msg.getFileOrClassname.data ++ " ".toList ++ msg.getFunction.data
    ++ " - ".toList ++ msg.getMsg.data

end LogMessage

/-- The basename of a path in the words of the specification: the portion following its final
`/`, or the entire path when it has no `/`; that is, its longest suffix without a `/`. -/
def basename (f : List Char) : List Char :=
  (f.reverse.takeWhile (fun c => decide (c ≠ '/'))).reverse

/-! ## `ConcurrentQueue` -/

/-- A `ConcurrentQueue<T>`: the elements of its `std::queue`, head first. The mutex and the
condition variable order the calls; each call is one atomic transition here. -/
structure ConcurrentQueue (T : Type) where
  m_queue : List T

namespace ConcurrentQueue

variable {T : Type}

/-- The member `push(data)`: `m_queue.push(data)` copy-constructs `data` at the tail. -/
def push (copy : T → T) (q : ConcurrentQueue T) (data : T) : ConcurrentQueue T :=
  { m_queue := q.m_queue ++ [copy data] }

/-- The member `pop()`: while the queue is empty the caller waits (`none`); otherwise
`T t = m_queue.front()` copy-constructs the head, `m_queue.pop()` removes it and `t` is
returned (the return of the local `t` is taken as elided). -/
def pop (copy : T → T) (q : ConcurrentQueue T) : Option (T × ConcurrentQueue T) :=
  match q.m_queue with
  | [] => none
  | t :: rest => some (copy t, { m_queue := rest })

/-- Successive `push` calls, one for each element of a list, in list order. -/
def pushAll (copy : T → T) (q : ConcurrentQueue T) (xs : List T) : ConcurrentQueue T :=
  xs.foldl (push copy) q

/-- The results of `n` successive `pop` calls, first call first, and the queue left behind;
`none` when one of the calls finds the queue empty. -/
def popN (copy : T → T) : Nat → ConcurrentQueue T → Option (List T × ConcurrentQueue T)
  | 0, q => some ([], q)
  | n + 1, q =>
    match pop copy q with
    | none => none
    | some (t, q1) =>
      match popN copy n q1 with
      | none => none
      | some (ts, q2) => some (t :: ts, q2)

end ConcurrentQueue

/-! ## `LogManager` -/

/-- Where the consumer task stands in `LogManager::run`: about to test `m_running`, inside
`m_queue.pop()`, or returned. -/
inductive Consumer where
  | loopHead
  | inPop
  | finished
deriving DecidableEq, Repr

/-- The `LogManager` singleton with the consumer task and the two sinks. `m_future` is `none`
while `m_future.valid()` is false, otherwise it holds the state of the task launched by
`start()`. `stdout` is the character stream of standard output; `files` maps a path to the
contents of the file there. -/
structure System where
  m_globalLevel : LogLevel
  m_logFile : StdString
  m_running : Bool
  m_useFile : Bool
  m_queue : ConcurrentQueue LogMessage
  m_future : Option Consumer
  stdout : List Char
  files : List Char → Option (List Char)

/-- The file system after `ofs.open(path, out | app); ofs << text; ofs.close()`: the text is
appended to the file at `path`, which is created when absent (the open is taken to
succeed). -/
def appendFile (files : List Char → Option (List Char)) (path text : List Char) :
    List Char → Option (List Char) :=
  fun p => if p = path then some ((files p).getD [] ++ text) else files p

/-- The file system after `ofs.open(path, trunc); ofs.close()`. -/
def truncFile (files : List Char → Option (List Char)) (path : List Char) :
    List Char → Option (List Char) :=
  fun p => if p = path then some [] else files p

namespace LogManager

/-- The state after the constructor `LogManager()`; `m_globalLevel` is not initialised by it
and is given here. -/
def construct (level : LogLevel) : System :=
  { m_globalLevel := level
    m_logFile := StdString.lit ""
    m_running := false
    m_useFile := false
    m_queue := { m_queue := [] }
    m_future := none
    stdout := []
    files := fun _ => none }

def setLevel (s : System) (level : LogLevel) : System :=
  { s with m_globalLevel := level }

def setFile (s : System) (logFile : StdString) : System :=
  { s with m_useFile := true, m_logFile := logFile, files := truncFile s.files logFile.data }

/-- The member `log`: a `LogMessage` is constructed and pushed onto `m_queue`. -/
def log (s : System) (level : LogLevel) (file function msg : StdString) : System :=
  { s with m_queue := s.m_queue.push LogMessage.copy (LogMessage.construct level file function msg) }

/-- The body of the loop of `run` after the `pop`: the threshold test and the two writes;
`std::endl` ends the line. -/
def runBody (s : System) (msg : LogMessage) : System :=
  if s.m_globalLevel.ge msg.getLogLevel then
    let s1 : System := { s with stdout := s.stdout ++ (msg.operatorShl ++ ['\n']) }
    if s1.m_useFile then
      { s1 with files := appendFile s1.files s1.m_logFile.data (msg.operatorShl ++ ['\n']) }
    else s1
  else s

/-- One transition of the consumer task in `run`: at the loop head it tests `m_running` and
either enters `pop` or returns; inside `pop` it waits while the queue is empty (`none`),
otherwise it takes the head, runs the loop body and is back at the loop head. -/
def runStep (s : System) : Option System :=
  match s.m_future with
  | some .loopHead =>
    if s.m_running then some { s with m_future := some .inPop }
    else some { s with m_future := some .finished }
  | some .inPop =>
    match s.m_queue.pop LogMessage.copy with
    | none => none
    | some (msg, q) => some (runBody { s with m_queue := q, m_future := some .loopHead } msg)
  | _ => none

/-- The consumer task run for at most `fuel` transitions, stopping where it has none. -/
def runSteps : Nat → System → System
  | 0, s => s
  | fuel + 1, s =>
    match runStep s with
    | none => s
    | some s1 => runSteps fuel s1

/-- The call `m_future.wait()`: the consumer task runs until it has returned; `none` when it
does not return within `fuel` transitions. -/
def wait : Nat → System → Option System
  | fuel, s =>
    if s.m_future = some .finished then some s
    else
      match fuel with
      | 0 => none
      | fuel + 1 =>
        match runStep s with
        | none => none
        | some s1 => wait fuel s1

/-- The message that `stop()` logs with `LOG_TRACE`. -/
def stopMsg : StdString :=
  StdString.lit "With this, I proclaim myself president of the tautology club"

/-- The record that `stop()` builds: `LOG_TRACE` passes `LEVEL_TRACE`, `__FILE__` (the path
under which `Logger.cpp` was compiled, given as `file`) and `__FUNCTION__`. -/
def stopRecord (file : StdString) : LogMessage :=
  LogMessage.construct .LEVEL_TRACE file (StdString.lit "stop") stopMsg

/-- The member `stop()`: `m_running = false`, the `LOG_TRACE` record is logged (through
`getManager()`, which is this manager), and when `m_future.valid()` the task is waited for
and `get()` leaves the future invalid. While `m_running` is false a consumer task returns
within two transitions or never (`wait_fuel`), so `none` means that `stop()` does not
return. -/
def stop (file : StdString) (s : System) : Option System :=
  let s1 : System := { s with m_running := false }
  let s2 : System := log s1 .LEVEL_TRACE file (StdString.lit "stop") stopMsg
  match s2.m_future with
  | some _ =>
    match wait 2 s2 with
    | none => none
    | some s3 => some { s3 with m_future := none }
  | none => some s2

end LogManager

/-! ## The line pattern of the specification -/

/-- One item of an anchored pattern: a literal character, or a capture group holding a greedy
repetition of a character class, at least `min` characters long (`(C+)` has `min = 1`, `(C*)`
has `min = 0`). -/
inductive Item where
  | lit (c : Char)
  | group (cls : Char → Bool) (min : Nat)

/-- Backtracking match of a whole character sequence against a sequence of items (`^` and `$`
anchor both ends): the capture groups in order, a group trying its longest repetition first. -/
def matchItems : List Item → List Char → Option (List (List Char))
  | [], s => if s = [] then some [] else none
  | .lit c :: rest, s =>
    match s with
    | [] => none
    | d :: s1 => if d = c then matchItems rest s1 else none
  | .group cls min :: rest, s =>
    (((List.range ((s.takeWhile cls).length + 1)).reverse).filter (fun k => decide (min ≤ k))).findSome?
      (fun k => (matchItems rest (s.drop k)).map (fun gs => s.take k :: gs))

/-- The class `[A-Z0-9]`. -/
def isUpperOrDigit (c : Char) : Bool :=
  (decide ('A' ≤ c) && decide (c ≤ 'Z')) || (decide ('0' ≤ c) && decide (c ≤ '9'))

/-- The whitespace characters: space, tab, line feed, vertical tab, form feed, carriage
return. -/
def isSpace (c : Char) : Bool :=
  c = ' ' || c = '\t' || c = '\n' || c = Char.ofNat 11 || c = Char.ofNat 12 || c = '\r'

/-- The class `\S`. -/
def nonSpace (c : Char) : Bool := !isSpace c

/-- The class `.`: every character but the line feed. -/
def notNewline (c : Char) : Bool := decide (c ≠ '\n')

/-- The regular expression of the specification,
`^\[([A-Z0-9]+)\] (\S+) (\S+) - (.*)$`, item by item. -/
def linePattern : List Item :=
  [.lit '[', .group isUpperOrDigit 1, .lit ']', .lit ' ', .group nonSpace 1, .lit ' ',
   .group nonSpace 1, .lit ' ', .lit '-', .lit ' ', .group notNewline 0]


/-! ## Basename and the getters -/

theorem takeWhile_append_cons {α : Type} (p : α → Bool) (a : List α) (b : α) (t : List α)
    (ha : ∀ x ∈ a, p x = true) (hb : p b = false) : (a ++ b :: t).takeWhile p = a := by
  induction a with
  | nil => simp [List.takeWhile, hb]
  | cons x xs ih =>
    have hx : p x = true := ha x (List.mem_cons_self x xs)
    have hxs : ∀ y ∈ xs, p y = true := fun y hy => ha y (List.mem_cons_of_mem x hy)
    simp [List.takeWhile, hx, ih hxs]

theorem takeWhile_all {α : Type} (p : α → Bool) (a : List α)
    (ha : ∀ x ∈ a, p x = true) : a.takeWhile p = a := by
  induction a with
  | nil => rfl
  | cons x xs ih =>
    have hx : p x = true := ha x (List.mem_cons_self x xs)
    have hxs : ∀ y ∈ xs, p y = true := fun y hy => ha y (List.mem_cons_of_mem x hy)
    simp [List.takeWhile, hx, ih hxs]

theorem basename_of_not_mem (f : List Char) (h : '/' ∉ f) : basename f = f := by
  unfold basename
  rw [takeWhile_all, List.reverse_reverse]
  intro x hx
  have : x ≠ '/' := by
    rintro rfl
    exact h (List.mem_reverse.mp hx)
  simpa using this

theorem basename_append (pre suf : List Char) (h : '/' ∉ suf) :
    basename (pre ++ '/' :: suf) = suf := by
  unfold basename
  have hrev : (pre ++ '/' :: suf).reverse = suf.reverse ++ '/' :: pre.reverse := by simp
  rw [hrev, takeWhile_append_cons, List.reverse_reverse]
  · intro x hx
    have : x ≠ '/' := by
      rintro rfl
      exact h (List.mem_reverse.mp hx)
    simpa using this
  · simp

theorem basename_no_slash (f : List Char) : '/' ∉ basename f := by
  unfold basename
  intro h
  have h1 := List.mem_reverse.mp h
  have h2 := List.mem_takeWhile_imp h1
  simp at h2

theorem basename_idem (f : List Char) : basename (basename f) = basename f :=
  basename_of_not_mem _ (basename_no_slash f)

theorem rfindList_spec (c : Char) (l : List Char) :
    match StdString.rfindList c l with
    | none => c ∉ l
    | some i => ∃ pre suf, l = pre ++ c :: suf ∧ pre.length = i ∧ c ∉ suf := by
  induction l with
  | nil => simp [StdString.rfindList]
  | cons x xs ih =>
    cases hr : StdString.rfindList c xs with
    | some j =>
      rw [hr] at ih
      obtain ⟨pre, suf, h1, h2, h3⟩ := ih
      simp only [StdString.rfindList, hr]
      exact ⟨x :: pre, suf, by simp [h1], by simp [h2], h3⟩
    | none =>
      rw [hr] at ih
      simp only [StdString.rfindList, hr]
      by_cases hx : x = c
      · simp only [hx, if_true]
        exact ⟨[], xs, by simp, rfl, ih⟩
      · simp only [hx, if_false]
        intro hmem
        rcases List.mem_cons.mp hmem with h | h
        · exact hx h.symm
        · exact ih h

theorem getFileOrClassname_data (m : LogMessage) :
    m.getFileOrClassname.data = basename m.m_file.data := by
  have hspec := rfindList_spec '/' m.m_file.data
  have hs := m.m_file.size_lt
  unfold LogMessage.getFileOrClassname StdString.substr StdString.rfind StdString.size
  cases hr : StdString.rfindList '/' m.m_file.data with
  | none =>
    rw [hr] at hspec
    rw [basename_of_not_mem _ hspec]
    simp [toSizeT, npos, SIZE_MOD]
  | some i =>
    rw [hr] at hspec
    obtain ⟨pre, suf, h1, h2, h3⟩ := hspec
    have hi := StdString.rfindList_lt '/' m.m_file.data i hr
    have hne : i ≠ npos := by omega
    have hmod : toSizeT ((i : Int) + 1) = i + 1 := by
      simp only [npos, SIZE_MOD] at hs
      simp only [toSizeT, SIZE_MOD]
      omega
    simp only [hne, if_false, hmod]
    rw [h1, basename_append _ _ h3]
    have hd : List.drop (i + 1) (pre ++ '/' :: suf) = suf := by
      rw [← h2]
      simp
    rw [hd]
    apply List.take_of_length_le
    simp only [List.length_append, List.length_cons]
    omega

theorem getFileOrClassname_copy (r : LogMessage) :
    r.copy.getFileOrClassname = r.getFileOrClassname := by
  apply StdString.ext_data
  rw [getFileOrClassname_data, getFileOrClassname_data]
  show basename r.getFileOrClassname.data = _
  rw [getFileOrClassname_data, basename_idem]

theorem operatorShl_copy (r : LogMessage) : r.copy.operatorShl = r.operatorShl := by
  unfold LogMessage.operatorShl
  rw [getFileOrClassname_copy]
  rfl

theorem copy_copy (r : LogMessage) : r.copy.copy = r.copy := by
  have h := getFileOrClassname_copy r
  unfold LogMessage.copy at h ⊢
  simp only [LogMessage.getLogLevel, LogMessage.getFunction, LogMessage.getMsg] at h ⊢
  rw [h]

theorem iterate_copy_getters (r : LogMessage) (n : Nat) :
    (LogMessage.copy^[n] r).getLogLevel = r.getLogLevel
      ∧ (LogMessage.copy^[n] r).getFileOrClassname = r.getFileOrClassname
      ∧ (LogMessage.copy^[n] r).getFunction = r.getFunction
      ∧ (LogMessage.copy^[n] r).getMsg = r.getMsg := by
  induction n generalizing r with
  | zero => simp
  | succ k ih =>
    rw [Function.iterate_succ_apply]
    obtain ⟨h1, h2, h3, h4⟩ := ih r.copy
    exact ⟨h1, h2.trans (getFileOrClassname_copy r), h3, h4⟩

theorem operatorShl_construct (level : LogLevel) (file function msg : StdString) :
    (LogMessage.construct level file function msg).operatorShl
      = "[".toList ++ (LogMessage.logLevelToString level).data ++ "] ".toList
          ++ basename file.data ++ " ".toList ++ function.data ++ " - ".toList ++ msg.data := by
  unfold LogMessage.operatorShl
  rw [getFileOrClassname_data]
  simp [LogMessage.construct, LogMessage.getLogLevel, LogMessage.getFunction, LogMessage.getMsg]

/-! ## The claims about `LogMessage` -/

/-- C2: for every string `f`, `getFileOrClassname` on a record constructed with file `f`
returns the basename of `f`: the portion after the final `/` (whenever `f` splits as
`pre ++ "/" ++ suf` with no `/` in `suf`, the result is `suf`), all of `f` when `f` has no `/`;
`"a/b/c.cpp"` and `"c.cpp"` give `"c.cpp"`, `""` and `"/"` give the empty string; the result
never contains `/`. -/
theorem getFileOrClassname_is_basename (level : LogLevel) (f function msg : StdString) :
    (LogMessage.construct level f function msg).getFileOrClassname.data = basename f.data
      ∧ (∀ pre suf : List Char, f.data = pre ++ '/' :: suf → '/' ∉ suf →
          (LogMessage.construct level f function msg).getFileOrClassname.data = suf)
      ∧ ('/' ∉ f.data →
          (LogMessage.construct level f function msg).getFileOrClassname.data = f.data)
      ∧ '/' ∉ (LogMessage.construct level f function msg).getFileOrClassname.data
      ∧ (LogMessage.construct level (StdString.lit "a/b/c.cpp") function msg).getFileOrClassname
          = StdString.lit "c.cpp"
      ∧ (LogMessage.construct level (StdString.lit "c.cpp") function msg).getFileOrClassname
          = StdString.lit "c.cpp"
      ∧ (LogMessage.construct level (StdString.lit "") function msg).getFileOrClassname
          = StdString.lit ""
      ∧ (LogMessage.construct level (StdString.lit "/") function msg).getFileOrClassname
          = StdString.lit "" := by
  have key : ∀ g : StdString,
      (LogMessage.construct level g function msg).getFileOrClassname.data = basename g.data :=
    fun g => getFileOrClassname_data _
  refine ⟨key f, ?_, ?_, ?_, ?_, ?_, ?_, ?_⟩
  · intro pre suf hf hsuf
    rw [key, hf, basename_append _ _ hsuf]
  · intro hf
    rw [key, basename_of_not_mem _ hf]
  · rw [key]
    exact basename_no_slash _
  · apply StdString.ext_data
    rw [key]
    decide
  · apply StdString.ext_data
    rw [key]
    decide
  · apply StdString.ext_data
    rw [key]
    decide
  · apply StdString.ext_data
    rw [key]
    decide

/-- C3: for every record built from `(level, file, function, message)`, `operator<<` writes
exactly `"[" + LEVEL + "] " + basename(file) + " " + function + " - " + message`, where LEVEL
is the uppercase name of the level (`FATAL`, `ERROR`, `WARN`, `INFO`, `DEBUG`, `TRACE`,
`TRACE1` .. `TRACE5`, or `NONE`); `(INFO, "src/lib/foo.cpp", "bar", "hi")` is written as
`[INFO] foo.cpp bar - hi`. -/
theorem operatorShl_format (level : LogLevel) (file function msg : StdString) :
    (LogMessage.construct level file function msg).operatorShl
        = "[".toList ++ (LogMessage.logLevelToString level).data ++ "] ".toList
            ++ basename file.data ++ " ".toList ++ function.data ++ " - ".toList ++ msg.data
      ∧ LogMessage.logLevelToString .LEVEL_FATAL = StdString.lit "FATAL"
      ∧ LogMessage.logLevelToString .LEVEL_ERROR = StdString.lit "ERROR"
      ∧ LogMessage.logLevelToString .LEVEL_WARN = StdString.lit "WARN"
      ∧ LogMessage.logLevelToString .LEVEL_INFO = StdString.lit "INFO"
      ∧ LogMessage.logLevelToString .LEVEL_DEBUG = StdString.lit "DEBUG"
      ∧ LogMessage.logLevelToString .LEVEL_TRACE = StdString.lit "TRACE"
      ∧ LogMessage.logLevelToString .LEVEL_TRACE1 = StdString.lit "TRACE1"
      ∧ LogMessage.logLevelToString .LEVEL_TRACE2 = StdString.lit "TRACE2"
      ∧ LogMessage.logLevelToString .LEVEL_TRACE3 = StdString.lit "TRACE3"
      ∧ LogMessage.logLevelToString .LEVEL_TRACE4 = StdString.lit "TRACE4"
      ∧ LogMessage.logLevelToString .LEVEL_TRACE5 = StdString.lit "TRACE5"
      ∧ LogMessage.logLevelToString .LEVEL_NONE = StdString.lit "NONE"
      ∧ (LogMessage.construct .LEVEL_INFO (StdString.lit "src/lib/foo.cpp") (StdString.lit "bar")
            (StdString.lit "hi")).operatorShl = "[INFO] foo.cpp bar - hi".toList := by
  exact ⟨operatorShl_construct level file function msg, rfl, rfl, rfl, rfl, rfl, rfl, rfl, rfl,
    rfl, rfl, rfl, rfl, by decide⟩

/-- C6, as stated, fails: the record constructed with file `"a/b.cpp"` stores `"a/b.cpp"`, which
is not its basename `"b.cpp"` and contains a `/`. -/
theorem construct_stores_raw_file :
    (LogMessage.construct .LEVEL_INFO (StdString.lit "a/b.cpp") (StdString.lit "f")
        (StdString.lit "m")).m_file.data = "a/b.cpp".toList
      ∧ basename "a/b.cpp".toList = "b.cpp".toList
      ∧ '/' ∈ (LogMessage.construct .LEVEL_INFO (StdString.lit "a/b.cpp") (StdString.lit "f")
          (StdString.lit "m")).m_file.data := by
  decide

/-- C6, amended: the constructor stores the input file as it is given; the basename is taken
when the field is read, so `getFileOrClassname` returns the basename of the input file and its
result contains no `/`; and the stored file of every copy of the record is the basename of the
input file and contains no `/`. -/
theorem construct_file_normalised_on_read (level : LogLevel) (file function msg : StdString) :
    (LogMessage.construct level file function msg).m_file = file
      ∧ (LogMessage.construct level file function msg).getFileOrClassname.data
          = basename file.data
      ∧ '/' ∉ (LogMessage.construct level file function msg).getFileOrClassname.data
      ∧ (LogMessage.construct level file function msg).copy.m_file.data = basename file.data
      ∧ '/' ∉ (LogMessage.construct level file function msg).copy.m_file.data := by
  have key : (LogMessage.construct level file function msg).getFileOrClassname.data
      = basename file.data := getFileOrClassname_data _
  refine ⟨rfl, key, ?_, key, ?_⟩
  · rw [key]
    exact basename_no_slash _
  · show '/' ∉ (LogMessage.construct level file function msg).getFileOrClassname.data
    rw [key]
    exact basename_no_slash _

/-- C10: copying preserves what a record shows: after any number `n` of successive copies
(copy constructor or `operator=`) of a record `r`, `getLogLevel`, `getFileOrClassname`,
`getFunction` and `getMsg` return what they return on `r`, and `operator<<` writes the same
text; a `push` followed by the `pop` of the record makes two such copies; and the basename
is idempotent. -/
theorem copy_preserves_view (r : LogMessage) (n : Nat) :
    (LogMessage.copy^[n] r).getLogLevel = r.getLogLevel
      ∧ (LogMessage.copy^[n] r).getFileOrClassname = r.getFileOrClassname
      ∧ (LogMessage.copy^[n] r).getFunction = r.getFunction
      ∧ (LogMessage.copy^[n] r).getMsg = r.getMsg
      ∧ (LogMessage.copy^[n] r).operatorShl = r.operatorShl
      ∧ ConcurrentQueue.pop LogMessage.copy
            (ConcurrentQueue.push LogMessage.copy { m_queue := [] } r)
          = some (LogMessage.copy^[2] r, { m_queue := [] })
      ∧ ∀ f : List Char, basename (basename f) = basename f := by
  obtain ⟨h1, h2, h3, h4⟩ := iterate_copy_getters r n
  refine ⟨h1, h2, h3, h4, ?_, rfl, basename_idem⟩
  unfold LogMessage.operatorShl
  rw [h1, h2, h3, h4]


/-! ## The queue -/

theorem pushAll_queue {T : Type} (copy : T → T) (xs : List T) (q : ConcurrentQueue T) :
    (ConcurrentQueue.pushAll copy q xs).m_queue = q.m_queue ++ xs.map copy := by
  induction xs generalizing q with
  | nil => simp [ConcurrentQueue.pushAll]
  | cons x xs ih =>
    have h := ih (ConcurrentQueue.push copy q x)
    simp only [ConcurrentQueue.pushAll, List.foldl_cons] at h ⊢
    rw [h]
    simp [ConcurrentQueue.push]

theorem popN_append {T : Type} (copy : T → T) (l rest : List T) :
    ConcurrentQueue.popN copy l.length { m_queue := l ++ rest }
      = some (l.map copy, { m_queue := rest }) := by
  induction l with
  | nil => rfl
  | cons x xs ih =>
    simp only [List.length_cons, ConcurrentQueue.popN, ConcurrentQueue.pop, List.cons_append, ih,
      List.map_cons]

/-- C4: `ConcurrentQueue` is FIFO in its sequential behaviour: `push(r)` appends (a copy of)
`r` at the tail and leaves the existing elements unchanged, `pop()` on a non-empty queue
removes the head and returns (a copy of) it, so for every finite sequence pushed onto an
empty queue the same number of pops returns the elements in exactly the order pushed and
empties the queue; for records, what is returned shows the same level, file, function,
message and text as what was pushed, position by position. -/
theorem ConcurrentQueue_fifo {T : Type} (copy : T → T) (q : ConcurrentQueue T) (r : T)
    (rest xs : List T) (rs : List LogMessage) :
    (ConcurrentQueue.push copy q r).m_queue = q.m_queue ++ [copy r]
      ∧ ConcurrentQueue.pop copy { m_queue := r :: rest } = some (copy r, { m_queue := rest })
      ∧ ConcurrentQueue.popN copy xs.length (ConcurrentQueue.pushAll copy { m_queue := [] } xs)
          = some (xs.map (fun x => copy (copy x)), { m_queue := [] })
      ∧ ∃ out : List LogMessage,
          ConcurrentQueue.popN LogMessage.copy rs.length
              (ConcurrentQueue.pushAll LogMessage.copy { m_queue := [] } rs)
            = some (out, { m_queue := [] })
          ∧ out.length = rs.length
          ∧ out.map LogMessage.getLogLevel = rs.map LogMessage.getLogLevel
          ∧ out.map LogMessage.getFileOrClassname = rs.map LogMessage.getFileOrClassname
          ∧ out.map LogMessage.getFunction = rs.map LogMessage.getFunction
          ∧ out.map LogMessage.getMsg = rs.map LogMessage.getMsg
          ∧ out.map LogMessage.operatorShl = rs.map LogMessage.operatorShl := by
  have hpop : ∀ ys : List T,
      ConcurrentQueue.popN copy ys.length (ConcurrentQueue.pushAll copy { m_queue := [] } ys)
        = some (ys.map (fun x => copy (copy x)), { m_queue := [] }) := by
    intro ys
    have h1 := pushAll_queue copy ys { m_queue := [] }
    have h2 := popN_append copy (ys.map copy) []
    simp only [List.nil_append, List.append_nil, List.length_map, List.map_map] at h1 h2
    have h3 : ConcurrentQueue.pushAll copy { m_queue := [] } ys = { m_queue := ys.map copy } := by
      cases hq : ConcurrentQueue.pushAll copy { m_queue := [] } ys
      rw [hq] at h1
      simp only at h1
      rw [h1]
    rw [h3, h2]
    rfl
  refine ⟨rfl, rfl, hpop xs, ?_⟩
  have h1 := pushAll_queue LogMessage.copy rs { m_queue := [] }
  have h2 := popN_append LogMessage.copy (rs.map LogMessage.copy) []
  simp only [List.nil_append, List.append_nil, List.length_map, List.map_map] at h1 h2
  have h3 : ConcurrentQueue.pushAll LogMessage.copy { m_queue := [] } rs
      = { m_queue := rs.map LogMessage.copy } := by
    cases hq : ConcurrentQueue.pushAll LogMessage.copy { m_queue := [] } rs
    rw [hq] at h1
    simp only at h1
    rw [h1]
  refine ⟨_, by rw [h3]; exact h2, by simp, ?_, ?_, ?_, ?_, ?_⟩
  · simp only [List.map_map]
    apply List.map_congr_left
    intro a _
    exact (iterate_copy_getters a 2).1
  · simp only [List.map_map]
    apply List.map_congr_left
    intro a _
    exact (iterate_copy_getters a 2).2.1
  · simp only [List.map_map]
    apply List.map_congr_left
    intro a _
    exact (iterate_copy_getters a 2).2.2.1
  · simp only [List.map_map]
    apply List.map_congr_left
    intro a _
    exact (iterate_copy_getters a 2).2.2.2
  · simp only [List.map_map]
    apply List.map_congr_left
    intro a _
    show a.copy.copy.operatorShl = a.operatorShl
    rw [operatorShl_copy, operatorShl_copy]


/-! ## The consumer loop -/

/-- The characters that the loop of `run` writes to standard output for the records `rs`
under the threshold `g`: the line of every record that passes `g >= level`, in order. -/
def emitted (g : LogLevel) (rs : List LogMessage) : List Char :=
  ((rs.filter (fun r => g.ge r.getLogLevel)).map (fun r => r.operatorShl ++ ['\n'])).flatten

theorem runBody_stdout (s : System) (msg : LogMessage) :
    (LogManager.runBody s msg).stdout
      = s.stdout ++ (if s.m_globalLevel.ge msg.getLogLevel then msg.operatorShl ++ ['\n'] else []) := by
  unfold LogManager.runBody
  by_cases h : s.m_globalLevel.ge msg.getLogLevel = true
  · by_cases hf : s.m_useFile = true <;> simp [h, hf]
  · simp [h]

theorem runBody_fields (s : System) (msg : LogMessage) :
    (LogManager.runBody s msg).m_globalLevel = s.m_globalLevel
      ∧ (LogManager.runBody s msg).m_logFile = s.m_logFile
      ∧ (LogManager.runBody s msg).m_running = s.m_running
      ∧ (LogManager.runBody s msg).m_useFile = s.m_useFile
      ∧ (LogManager.runBody s msg).m_queue = s.m_queue
      ∧ (LogManager.runBody s msg).m_future = s.m_future := by
  unfold LogManager.runBody
  by_cases h : s.m_globalLevel.ge msg.getLogLevel = true
  · by_cases hf : s.m_useFile = true <;> simp [h, hf]
  · simp [h]

theorem emitted_cons (g : LogLevel) (r : LogMessage) (rs : List LogMessage) :
    emitted g (r :: rs)
      = (if g.ge r.getLogLevel then r.operatorShl ++ ['\n'] else []) ++ emitted g rs := by
  unfold emitted
  by_cases h : g.ge r.getLogLevel = true
  · simp [List.filter_cons, h]
  · simp [List.filter_cons, h]

theorem runStep_inPop_cons (s : System) (r : LogMessage) (rest : List LogMessage)
    (hc : s.m_future = some .inPop) (hq : s.m_queue.m_queue = r :: rest) :
    ∃ s1 : System, LogManager.runStep s = some s1
      ∧ s1.m_globalLevel = s.m_globalLevel
      ∧ s1.m_logFile = s.m_logFile
      ∧ s1.m_running = s.m_running
      ∧ s1.m_useFile = s.m_useFile
      ∧ s1.m_queue.m_queue = rest
      ∧ s1.m_future = some .loopHead
      ∧ s1.stdout = s.stdout
          ++ (if s.m_globalLevel.ge r.getLogLevel then r.operatorShl ++ ['\n'] else [])
      ∧ (s.m_globalLevel.ge r.getLogLevel = false → s1.files = s.files) := by
  obtain ⟨f1, f2, f3, f4, f5, f6⟩ := runBody_fields
    { s with m_queue := { m_queue := rest }, m_future := some .loopHead } r.copy
  have hout := runBody_stdout
    { s with m_queue := { m_queue := rest }, m_future := some .loopHead } r.copy
  refine ⟨LogManager.runBody
    { s with m_queue := { m_queue := rest }, m_future := some .loopHead } r.copy,
    ?_, f1, f2, f3, f4, ?_, f6, ?_, ?_⟩
  · simp [LogManager.runStep, hc, ConcurrentQueue.pop, hq]
  · rw [f5]
  · rw [hout, operatorShl_copy]
    rfl
  · intro hge
    have hge2 : s.m_globalLevel.ge r.copy.getLogLevel = false := hge
    simp [LogManager.runBody, hge2]

theorem runStep_loopHead_running (s : System) (hc : s.m_future = some .loopHead)
    (h : s.m_running = true) :
    LogManager.runStep s = some { s with m_future := some .inPop } := by
  unfold LogManager.runStep
  rw [hc]
  exact if_pos h

theorem runStep_loopHead_stopped (s : System) (hc : s.m_future = some .loopHead)
    (h : s.m_running = false) :
    LogManager.runStep s = some { s with m_future := some .finished } := by
  unfold LogManager.runStep
  rw [hc]
  exact if_neg (by simp [h])

theorem runSteps_inPop (rs : List LogMessage) :
    ∀ (s : System) (n : Nat), s.m_running = true → s.m_future = some .inPop →
      s.m_queue.m_queue = rs → 2 * rs.length ≤ n →
      (LogManager.runSteps n s).stdout = s.stdout ++ emitted s.m_globalLevel rs
        ∧ (LogManager.runSteps n s).m_queue.m_queue = []
        ∧ (LogManager.runSteps n s).m_future = some .inPop := by
  induction rs with
  | nil =>
    intro s n _ hc hq _
    have hstep : LogManager.runStep s = none := by
      simp [LogManager.runStep, hc, ConcurrentQueue.pop, hq]
    have hres : LogManager.runSteps n s = s := by
      cases n with
      | zero => rfl
      | succ k => simp [LogManager.runSteps, hstep]
    rw [hres]
    exact ⟨by simp [emitted], hq, hc⟩
  | cons r rest ih =>
    intro s n hrun hc hq hn
    obtain ⟨m, rfl⟩ : ∃ m, n = m + 2 := ⟨n - 2, by simp only [List.length_cons] at hn; omega⟩
    obtain ⟨s1, hstep1, g1, _, g3, _, g5, g6, g7, _⟩ := runStep_inPop_cons s r rest hc hq
    have hstep2 := runStep_loopHead_running s1 g6 (g3.trans hrun)
    have h := ih { s1 with m_future := some .inPop } m (g3.trans hrun) rfl g5
      (by simp only [List.length_cons] at hn; omega)
    simp only [LogManager.runSteps, hstep1, hstep2]
    refine ⟨?_, h.2.1, h.2.2⟩
    rw [h.1]
    show s1.stdout ++ emitted s1.m_globalLevel rest = _
    rw [g7, g1, emitted_cons, List.append_assoc]

/-- C1: for every threshold and every finite sequence of records in the queue, the consumer
loop `run`, entered while `m_running` is true, writes to standard output exactly the lines
(text of `operator<<`, then the line end) of those records whose level satisfies
`m_globalLevel >= level`, in queue order and each once, and is then waiting in `pop` on the
empty queue; every further transition it is given changes nothing. A record whose level is
above the threshold produces no output. -/
theorem run_emits_filtered (s : System) (n : Nat) (hrun : s.m_running = true)
    (hc : s.m_future = some .loopHead) (hn : 2 * s.m_queue.m_queue.length + 1 ≤ n) :
    (LogManager.runSteps n s).stdout
        = s.stdout ++ ((s.m_queue.m_queue.filter
            (fun r => decide (r.getLogLevel.toNat ≤ s.m_globalLevel.toNat))).map
              (fun r => r.operatorShl ++ ['\n'])).flatten
      ∧ (LogManager.runSteps n s).m_queue.m_queue = []
      ∧ (LogManager.runSteps n s).m_future = some .inPop
      ∧ ∀ r : LogMessage, s.m_globalLevel.toNat < r.getLogLevel.toNat →
          (LogManager.runBody s r).stdout = s.stdout := by
  obtain ⟨m, rfl⟩ : ∃ m, n = m + 1 := ⟨n - 1, by omega⟩
  have hstep := runStep_loopHead_running s hc hrun
  have h := runSteps_inPop s.m_queue.m_queue { s with m_future := some .inPop } m hrun rfl rfl
    (by omega)
  simp only [LogManager.runSteps, hstep]
  refine ⟨h.1, h.2.1, h.2.2, ?_⟩
  intro r hr
  rw [runBody_stdout]
  have : s.m_globalLevel.ge r.getLogLevel = false := by
    simp only [LogLevel.ge, decide_eq_false_iff_not]
    omega
  simp [this]


/-- The level-filtering scenario of the specification: threshold `WARN`, records logged at
`INFO`, `WARN` and `ERROR`, the consumer task at the head of its loop. -/
def warnScenario : System :=
  { LogManager.log (LogManager.log (LogManager.log (LogManager.construct .LEVEL_WARN)
        .LEVEL_INFO (StdString.lit "src/a.cpp") (StdString.lit "f") (StdString.lit "one"))
        .LEVEL_WARN (StdString.lit "src/a.cpp") (StdString.lit "g") (StdString.lit "two"))
        .LEVEL_ERROR (StdString.lit "b.cpp") (StdString.lit "h") (StdString.lit "three") with
    m_running := true, m_future := some .loopHead }

/-- The threshold `WARN` with records at `INFO`, `WARN`, `ERROR`: standard output holds the
`WARN` and the `ERROR` line, in that order. -/
theorem run_emits_filtered_witness :
    warnScenario.m_running = true
      ∧ warnScenario.m_future = some .loopHead
      ∧ 2 * warnScenario.m_queue.m_queue.length + 1 ≤ 7
      ∧ (LogManager.runSteps 7 warnScenario).stdout
          = "[WARN] a.cpp g - two\n[ERROR] b.cpp h - three\n".toList :=
  ⟨rfl, rfl, by decide,
    (run_emits_filtered warnScenario 7 rfl rfl (by decide)).1.trans (by decide)⟩


/-! ## `stop()` -/

theorem wait_finished (n : Nat) (s : System) (h : s.m_future = some .finished) :
    LogManager.wait n s = some s := by
  cases n <;> simp [LogManager.wait, h]

theorem wait_loopHead_stopped (n : Nat) (s : System) (hc : s.m_future = some .loopHead)
    (hr : s.m_running = false) :
    LogManager.wait (n + 1) s = some { s with m_future := some .finished } := by
  rw [LogManager.wait, if_neg (by simp [hc])]
  simp only [runStep_loopHead_stopped s hc hr]
  exact wait_finished n _ rfl

theorem wait_inPop_stopped (n : Nat) (s : System) (r : LogMessage) (rest : List LogMessage)
    (hc : s.m_future = some .inPop) (hr : s.m_running = false)
    (hq : s.m_queue.m_queue = r :: rest) :
    ∃ s3 : System, LogManager.wait (n + 2) s = some s3
      ∧ s3.m_globalLevel = s.m_globalLevel
      ∧ s3.m_logFile = s.m_logFile
      ∧ s3.m_running = false
      ∧ s3.m_useFile = s.m_useFile
      ∧ s3.m_queue.m_queue = rest
      ∧ s3.m_future = some .finished
      ∧ s3.stdout = s.stdout
          ++ (if s.m_globalLevel.ge r.getLogLevel then r.operatorShl ++ ['\n'] else [])
      ∧ (s.m_globalLevel.ge r.getLogLevel = false → s3.files = s.files) := by
  obtain ⟨s1, h1, g1, g2, g3, g4, g5, g6, g7, g8⟩ := runStep_inPop_cons s r rest hc hq
  refine ⟨{ s1 with m_future := some .finished }, ?_, g1, g2, g3.trans hr, g4, g5, rfl, g7, g8⟩
  rw [LogManager.wait, if_neg (by simp [hc])]
  simp only [h1]
  exact wait_loopHead_stopped n s1 g6 (g3.trans hr)

/-- What `stop()` does when no task is to be waited for. -/
theorem stop_invalid (file : StdString) (s : System) (hf : s.m_future = none) :
    LogManager.stop file s
      = some (LogManager.log { s with m_running := false } .LEVEL_TRACE file
          (StdString.lit "stop") LogManager.stopMsg) := by
  have hf2 : (LogManager.log { s with m_running := false } .LEVEL_TRACE file
      (StdString.lit "stop") LogManager.stopMsg).m_future = none := hf
  unfold LogManager.stop
  simp only [hf2]

/-- What `stop()` does when a task is to be waited for. -/
theorem stop_valid (file : StdString) (s : System) (c : Consumer) (hf : s.m_future = some c) :
    LogManager.stop file s
      = (LogManager.wait 2 (LogManager.log { s with m_running := false } .LEVEL_TRACE file
          (StdString.lit "stop") LogManager.stopMsg)).map
            (fun s3 => { s3 with m_future := none }) := by
  have hf2 : (LogManager.log { s with m_running := false } .LEVEL_TRACE file
      (StdString.lit "stop") LogManager.stopMsg).m_future = some c := hf
  unfold LogManager.stop
  simp only [hf2]
  cases LogManager.wait 2 _ <;> rfl

/-- The call `stop()` returns from every state, with `m_running` false and `m_future`
invalid, the threshold and the file settings as they were; when the consumer task was
waiting in `pop` on an empty queue, the task takes the record of `stop()` off the queue and
handles it as it handles any record. -/
theorem stop_spec (file : StdString) (s : System) :
    ∃ s1 : System, LogManager.stop file s = some s1
      ∧ s1.m_running = false
      ∧ s1.m_future = none
      ∧ s1.m_globalLevel = s.m_globalLevel
      ∧ s1.m_logFile = s.m_logFile
      ∧ s1.m_useFile = s.m_useFile
      ∧ (s.m_future = some .inPop → s.m_queue.m_queue = [] →
          s1.m_queue.m_queue = []
            ∧ s1.stdout = s.stdout
                ++ (if s.m_globalLevel.ge .LEVEL_TRACE
                    then (LogManager.stopRecord file).operatorShl ++ ['\n'] else [])
            ∧ (s.m_globalLevel.ge .LEVEL_TRACE = false → s1.files = s.files)) := by
  obtain ⟨s2, hs2⟩ : ∃ s2 : System, s2 = LogManager.log { s with m_running := false }
    .LEVEL_TRACE file (StdString.lit "stop") LogManager.stopMsg := ⟨_, rfl⟩
  have e1 : s2.m_running = false := by rw [hs2]; rfl
  have e2 : s2.m_future = s.m_future := by rw [hs2]; rfl
  have e3 : s2.m_queue.m_queue = s.m_queue.m_queue ++ [(LogManager.stopRecord file).copy] := by
    rw [hs2]; rfl
  have e4 : s2.m_globalLevel = s.m_globalLevel := by rw [hs2]; rfl
  have e5 : s2.m_logFile = s.m_logFile := by rw [hs2]; rfl
  have e6 : s2.m_useFile = s.m_useFile := by rw [hs2]; rfl
  have e7 : s2.stdout = s.stdout := by rw [hs2]; rfl
  have e8 : s2.files = s.files := by rw [hs2]; rfl
  cases hf : s.m_future with
  | none =>
    rw [stop_invalid file s hf, ← hs2]
    exact ⟨s2, rfl, e1, e2.trans hf, e4, e5, e6, fun h => by simp at h⟩
  | some c =>
    rw [stop_valid file s c hf, ← hs2]
    rw [hf] at e2
    cases c with
    | finished =>
      rw [wait_finished 2 s2 e2]
      exact ⟨_, rfl, e1, rfl, e4, e5, e6, fun h => by simp at h⟩
    | loopHead =>
      rw [wait_loopHead_stopped 1 s2 e2 e1]
      exact ⟨_, rfl, e1, rfl, e4, e5, e6, fun h => by simp at h⟩
    | inPop =>
      cases hq : s.m_queue.m_queue with
      | cons r rest =>
        rw [hq] at e3
        obtain ⟨s3, h3, g1, g2, g3, g4, _, _, _, _⟩ :=
          wait_inPop_stopped 0 s2 r (rest ++ [(LogManager.stopRecord file).copy]) e2 e1 e3
        rw [h3]
        exact ⟨_, rfl, g3, rfl, g1.trans e4, g2.trans e5, g4.trans e6, fun _ h => by simp at h⟩
      | nil =>
        rw [hq] at e3
        obtain ⟨s3, h3, g1, g2, g3, g4, g5, _, g7, g8⟩ :=
          wait_inPop_stopped 0 s2 (LogManager.stopRecord file).copy [] e2 e1 e3
        rw [h3]
        refine ⟨_, rfl, g3, rfl, g1.trans e4, g2.trans e5, g4.trans e6, fun _ _ => ⟨g5, ?_, ?_⟩⟩
        · show s3.stdout = _
          rw [g7, e7, e4, operatorShl_copy]
          rfl
        · intro hge
          show s3.files = _
          rw [g8 (by rw [e4]; exact hge), e8]


/-- While `m_running` is false, two transitions are all the fuel `wait` can use. -/
theorem wait_fuel (n : Nat) (s : System) (hr : s.m_running = false) :
    LogManager.wait (n + 2) s = LogManager.wait 2 s := by
  cases hf : s.m_future with
  | none =>
    have hstep : LogManager.runStep s = none := by simp [LogManager.runStep, hf]
    rw [LogManager.wait, if_neg (by simp [hf]), LogManager.wait, if_neg (by simp [hf])]
    simp only [hstep]
  | some c =>
    cases c with
    | finished => rw [wait_finished _ s hf, wait_finished _ s hf]
    | loopHead => rw [wait_loopHead_stopped _ s hf hr, wait_loopHead_stopped 1 s hf hr]
    | inPop =>
      cases hq : s.m_queue.m_queue with
      | nil =>
        have hstep : LogManager.runStep s = none := by
          simp [LogManager.runStep, hf, ConcurrentQueue.pop, hq]
        rw [LogManager.wait, if_neg (by simp [hf]), LogManager.wait, if_neg (by simp [hf])]
        simp only [hstep]
      | cons r rest =>
        obtain ⟨s1, h1, _, _, g3, _, _, g6, _, _⟩ := runStep_inPop_cons s r rest hf hq
        rw [LogManager.wait, if_neg (by simp [hf]), LogManager.wait, if_neg (by simp [hf])]
        simp only [h1]
        rw [wait_loopHead_stopped n s1 g6 (g3.trans hr),
          wait_loopHead_stopped 0 s1 g6 (g3.trans hr)]

/-! ## The claims about the manager -/

/-- The state of a manager whose consumer task waits in `pop` on the empty queue, under the
threshold `level`: what `start()` and an idle moment leave. -/
def parked (level : LogLevel) : System :=
  { LogManager.construct level with m_running := true, m_future := some .inPop }

/-- C7, as stated, fails: with the consumer task waiting on the empty queue, the first
`stop()` leaves the queue empty (the task has taken the record of `stop()`), the second one
leaves a record in the queue. -/
theorem stop_twice_changes_queue :
    (LogManager.stop (StdString.lit "src/Logger.cpp") (parked .LEVEL_INFO)).map
        (fun s => s.m_queue.m_queue.length) = some 0
      ∧ ((LogManager.stop (StdString.lit "src/Logger.cpp") (parked .LEVEL_INFO)).bind
          (LogManager.stop (StdString.lit "src/Logger.cpp"))).map
            (fun s => s.m_queue.m_queue.length) = some 1 := by
  decide

/-- C7, amended: from every manager state `stop()` returns, and a second call to `stop()`
then returns too and leaves the running flag, the consumer handle, the threshold, the file
settings and both sinks unchanged, while the queue holds one record more, the `TRACE` record
that `stop()` logs, at its tail. -/
theorem stop_twice (file : StdString) (s : System) :
    ∃ s1 s2 : System, LogManager.stop file s = some s1
      ∧ LogManager.stop file s1 = some s2
      ∧ s2 = { s1 with
          m_queue := { m_queue := s1.m_queue.m_queue ++ [(LogManager.stopRecord file).copy] } }
      ∧ s2.m_queue.m_queue.length = s1.m_queue.m_queue.length + 1 := by
  obtain ⟨s1, h, hr, hf, _⟩ := stop_spec file s
  refine ⟨s1, _, h, stop_invalid file s1 hf, ?_, ?_⟩
  · cases s1
    simp only at hr
    subst hr
    rfl
  · simp [LogManager.log, ConcurrentQueue.push]

/-- C8, as stated, fails: under the threshold `NONE` a record of level `NONE` passes
`m_globalLevel >= level` and is written to standard output. -/
theorem threshold_none_emits_none :
    (LogManager.runStep (LogManager.log (parked .LEVEL_NONE) .LEVEL_NONE
        (StdString.lit "src/a.cpp") (StdString.lit "f") (StdString.lit "m"))).map
          (fun s => s.stdout) = some "[NONE] a.cpp f - m\n".toList := by
  decide

/-- C8, amended: with threshold `NONE` the consumer drops every record of the eleven levels
other than `NONE` (`FATAL` included): it takes the record off the queue and writes nothing
to standard output or to the file sink. -/
theorem threshold_none_drops (s : System) (r : LogMessage) (rest : List LogMessage)
    (hg : s.m_globalLevel = .LEVEL_NONE) (hl : r.getLogLevel ≠ .LEVEL_NONE)
    (hc : s.m_future = some .inPop) (hq : s.m_queue.m_queue = r :: rest) :
    ∃ s1 : System, LogManager.runStep s = some s1
      ∧ s1.m_queue.m_queue = rest
      ∧ s1.stdout = s.stdout
      ∧ s1.files = s.files := by
  have hge : s.m_globalLevel.ge r.getLogLevel = false := by
    rw [hg]
    cases hlev : r.getLogLevel <;> first | exact absurd hlev hl | rfl
  obtain ⟨s1, h1, _, _, _, _, g5, _, g7, g8⟩ := runStep_inPop_cons s r rest hc hq
  refine ⟨s1, h1, g5, ?_, g8 hge⟩
  rw [g7, hge]
  simp

/-- A `FATAL` record under the threshold `NONE` is taken off the queue and nothing is
written. -/
theorem threshold_none_drops_witness :
    ∃ s1 : System,
      LogManager.runStep (LogManager.log (parked .LEVEL_NONE) .LEVEL_FATAL
          (StdString.lit "src/a.cpp") (StdString.lit "f") (StdString.lit "m")) = some s1
        ∧ s1.m_queue.m_queue = []
        ∧ s1.stdout = []
        ∧ s1.files = fun _ => none :=
  threshold_none_drops (LogManager.log (parked .LEVEL_NONE) .LEVEL_FATAL
      (StdString.lit "src/a.cpp") (StdString.lit "f") (StdString.lit "m"))
    (LogMessage.construct .LEVEL_FATAL (StdString.lit "src/a.cpp") (StdString.lit "f")
      (StdString.lit "m")).copy [] rfl (by decide) rfl rfl

/-- C9, as stated, fails: under the threshold `TRACE` the consumer task, woken by the record
of `stop()` while `m_running` is false, writes that record to standard output before it
returns. -/
theorem stop_record_emitted_at_trace :
    (LogManager.stop (StdString.lit "src/Logger.cpp") (parked .LEVEL_TRACE)).map
        (fun s => s.stdout)
      = some ("[TRACE] Logger.cpp stop - With this, I proclaim myself president of the "
          ++ "tautology club\n").toList := by
  decide

/-- C9, amended: when the consumer task, waiting in `pop` on the empty queue, pops the
record enqueued by `stop()` while `m_running` is false, it returns after that record (the
call `stop()` returns and leaves the handle invalid and the queue empty); for every
threshold below `TRACE` it writes nothing to standard output or to the file sink; for every
threshold from `TRACE` up it first writes the record to standard output as the `TRACE` line
that `operator<<` gives. -/
theorem stop_record_filtered (file : StdString) (s : System)
    (hc : s.m_future = some .inPop) (hq : s.m_queue.m_queue = []) :
    ∃ s1 : System, LogManager.stop file s = some s1
      ∧ s1.m_future = none
      ∧ s1.m_queue.m_queue = []
      ∧ (s.m_globalLevel.toNat < LogLevel.LEVEL_TRACE.toNat →
          s1.stdout = s.stdout ∧ s1.files = s.files)
      ∧ (LogLevel.LEVEL_TRACE.toNat ≤ s.m_globalLevel.toNat →
          s1.stdout = s.stdout ++ ((LogManager.stopRecord file).operatorShl ++ ['\n'])) := by
  obtain ⟨s1, h, _, hf, _, _, _, hpark⟩ := stop_spec file s
  obtain ⟨k1, k2, k3⟩ := hpark hc hq
  refine ⟨s1, h, hf, k1, ?_, ?_⟩
  · intro hlt
    have hge : s.m_globalLevel.ge .LEVEL_TRACE = false := by
      simp only [LogLevel.ge, decide_eq_false_iff_not]
      omega
    refine ⟨?_, k3 hge⟩
    rw [k2, hge]
    simp
  · intro hle
    have hge : s.m_globalLevel.ge .LEVEL_TRACE = true := by
      simp only [LogLevel.ge, decide_eq_true_eq]
      exact hle
    rw [k2, hge]
    simp

/-- Under the threshold `DEBUG` a waiting consumer task returns on `stop()` and standard
output stays empty. -/
theorem stop_record_filtered_witness :
    (parked .LEVEL_DEBUG).m_future = some .inPop
      ∧ (parked .LEVEL_DEBUG).m_queue.m_queue = []
      ∧ ∃ s1 : System,
          LogManager.stop (StdString.lit "src/Logger.cpp") (parked .LEVEL_DEBUG) = some s1
            ∧ s1.m_future = none
            ∧ s1.m_queue.m_queue = []
            ∧ s1.stdout = [] := by
  obtain ⟨s1, h, hf, hq, hlt, _⟩ :=
    stop_record_filtered (StdString.lit "src/Logger.cpp") (parked .LEVEL_DEBUG) rfl rfl
  exact ⟨rfl, rfl, s1, h, hf, hq, (hlt (by decide)).1⟩


/-! ## The line pattern -/

theorem matchItems_lit (c : Char) (rest : List Item) (s : List Char) :
    matchItems (.lit c :: rest) (c :: s) = matchItems rest s := by
  simp [matchItems]

theorem matchItems_group (cls : Char → Bool) (min : Nat) (rest : List Item)
    (g t : List Char) (gs : List (List Char)) (hg : ∀ x ∈ g, cls x = true)
    (hmin : min ≤ g.length) (ht : t = [] ∨ ∃ d t1, t = d :: t1 ∧ cls d = false)
    (hrest : matchItems rest t = some gs) :
    matchItems (.group cls min :: rest) (g ++ t) = some (g :: gs) := by
  have htw : (g ++ t).takeWhile cls = g := by
    rcases ht with rfl | ⟨d, t1, rfl, hd⟩
    · rw [List.append_nil]
      exact takeWhile_all cls g hg
    · exact takeWhile_append_cons cls g d t1 hg hd
  simp only [matchItems, htw, List.range_succ, List.reverse_append, List.reverse_cons,
    List.reverse_nil, List.nil_append, List.singleton_append]
  rw [List.filter_cons_of_pos (by simpa using hmin)]
  simp [hrest]

theorem levelName_class (level : LogLevel) :
    (∀ c ∈ (LogMessage.logLevelToString level).data, isUpperOrDigit c = true)
      ∧ 1 ≤ (LogMessage.logLevelToString level).data.length := by
  cases level <;> decide

/-- C5, as stated, fails, for records whose messages hold no newline: the lines of
`(INFO, "", "f", "m")` (empty basename), `(INFO, "a b", "f", "m")` (whitespace in the
basename), `(INFO, "a", "", "m")` (empty function) and `(INFO, "a", "f g", "m")` (whitespace in
the function) do not match the pattern, and the line of `(INFO, "a", "b - c", "d")` matches
with the groups `(INFO, a, b, c - d)`, which are not its function and message. -/
theorem line_pattern_counterexample :
    matchItems linePattern (LogMessage.construct .LEVEL_INFO (StdString.lit "")
        (StdString.lit "f") (StdString.lit "m")).operatorShl = none
      ∧ matchItems linePattern (LogMessage.construct .LEVEL_INFO (StdString.lit "a b")
          (StdString.lit "f") (StdString.lit "m")).operatorShl = none
      ∧ matchItems linePattern (LogMessage.construct .LEVEL_INFO (StdString.lit "a")
          (StdString.lit "") (StdString.lit "m")).operatorShl = none
      ∧ matchItems linePattern (LogMessage.construct .LEVEL_INFO (StdString.lit "a")
          (StdString.lit "f g") (StdString.lit "m")).operatorShl = none
      ∧ matchItems linePattern (LogMessage.construct .LEVEL_INFO (StdString.lit "a")
          (StdString.lit "b - c") (StdString.lit "d")).operatorShl
        = some ["INFO".toList, "a".toList, "b".toList, "c - d".toList]
      ∧ '\n' ∉ (StdString.lit "m").data ∧ '\n' ∉ (StdString.lit "d").data := by
  decide

/-- C5, amended: for every record `(level, file, function, message)` whose message contains
no newline and whose basename of `file` and whose function are both non-empty and free of
whitespace, matching its line against `^\[([A-Z0-9]+)\] (\S+) (\S+) - (.*)$` succeeds and the
four capture groups are exactly the level name, the basename of `file`, the function and the
message. -/
theorem line_pattern_recovers (level : LogLevel) (file function msg : StdString)
    (hb1 : basename file.data ≠ []) (hb2 : ∀ c ∈ basename file.data, isSpace c = false)
    (hf1 : function.data ≠ []) (hf2 : ∀ c ∈ function.data, isSpace c = false)
    (hm : '\n' ∉ msg.data) :
    matchItems linePattern (LogMessage.construct level file function msg).operatorShl
      = some [(LogMessage.logLevelToString level).data, basename file.data, function.data,
          msg.data] := by
  have h4 : matchItems [.group notNewline 0] msg.data = some [msg.data] := by
    have h := matchItems_group notNewline 0 [] msg.data [] []
      (fun x hx => by
        have : x ≠ '\n' := by rintro rfl; exact hm hx
        simpa [notNewline] using this)
      (Nat.zero_le _) (Or.inl rfl) (by simp [matchItems])
    simpa using h
  have h3 : matchItems [.lit ' ', .lit '-', .lit ' ', .group notNewline 0]
      (' ' :: '-' :: ' ' :: msg.data) = some [msg.data] := by
    rw [matchItems_lit, matchItems_lit, matchItems_lit, h4]
  have h2 : matchItems [.group nonSpace 1, .lit ' ', .lit '-', .lit ' ', .group notNewline 0]
      (function.data ++ ' ' :: '-' :: ' ' :: msg.data) = some [function.data, msg.data] :=
    matchItems_group nonSpace 1 _ function.data _ _
      (fun x hx => by simp [nonSpace, hf2 x hx])
      (List.length_pos.mpr hf1) (Or.inr ⟨' ', _, rfl, by decide⟩) h3
  have h1 : matchItems [.group nonSpace 1, .lit ' ', .group nonSpace 1, .lit ' ', .lit '-',
        .lit ' ', .group notNewline 0]
      (basename file.data ++ ' ' :: (function.data ++ ' ' :: '-' :: ' ' :: msg.data))
      = some [basename file.data, function.data, msg.data] :=
    matchItems_group nonSpace 1 _ (basename file.data) _ _
      (fun x hx => by simp [nonSpace, hb2 x hx])
      (List.length_pos.mpr hb1) (Or.inr ⟨' ', _, rfl, by decide⟩)
      (by rw [matchItems_lit]; exact h2)
  have h0 : matchItems linePattern
      ('[' :: ((LogMessage.logLevelToString level).data ++ ']' :: ' ' ::
        (basename file.data ++ ' ' :: (function.data ++ ' ' :: '-' :: ' ' :: msg.data))))
      = some [(LogMessage.logLevelToString level).data, basename file.data, function.data,
          msg.data] := by
    unfold linePattern
    rw [matchItems_lit]
    exact matchItems_group isUpperOrDigit 1 _ _ _ _ (levelName_class level).1
      (levelName_class level).2 (Or.inr ⟨']', _, rfl, by decide⟩)
      (by rw [matchItems_lit, matchItems_lit]; exact h1)
  rw [operatorShl_construct level file function msg]
  simpa using h0

/-- The line of `(INFO, "src/lib/foo.cpp", "bar", "hi")` parses back into its four parts. -/
theorem line_pattern_recovers_witness :
    basename (StdString.lit "src/lib/foo.cpp").data ≠ []
      ∧ (StdString.lit "bar").data ≠ []
      ∧ '\n' ∉ (StdString.lit "hi").data
      ∧ matchItems linePattern "[INFO] foo.cpp bar - hi".toList
          = some ["INFO".toList, "foo.cpp".toList, "bar".toList, "hi".toList] :=
  ⟨by decide, by decide, by decide,
    line_pattern_recovers .LEVEL_INFO (StdString.lit "src/lib/foo.cpp") (StdString.lit "bar")
      (StdString.lit "hi") (by decide) (by decide) (by decide) (by decide) (by decide)⟩

end Logging
